import Mathlib

/-!
Shallow embedding of `src/toy_machine.py`, an interpreter for a minimal
16-bit educational machine.  Registers and memory are Python dictionaries
keyed by strings; we model them as association lists with first-match
lookup (prepending an entry shadows an older one, which matches dictionary
update semantics as far as lookup is concerned).  Python exceptions
(KeyError, ValueError, IndexError, the range Exception, the NameError that
the unreachable reserved-register branch would raise, EOFError from
console input) become an explicit error type; console I/O becomes an
explicit input list and output list.
-/

namespace Toy

/-- Dictionaries of string keys and string values, as the Python code uses
for both the register file and memory. -/
abbrev Dict := List (String × String)

def dictGet (m : Dict) (k : String) : Option String :=
  List.lookup k m

def dictSet (m : Dict) (k v : String) : Dict :=
  (k, v) :: m

/-- Python errors that the interpreter can raise. -/
inductive ToyErr where
  | keyError (key : String)
  | valueError (s : String)
  | rangeError (pc : Int) (value : Int)
  | nameError
  | indexError
  | eofError
  deriving Repr, DecidableEq

/-- Builds a one-character string, as Python indexing a string does. -/
def charStr (c : Char) : String := String.mk [c]

/-- Python s[-n:]. For n at least 1 this is the last n characters, or the
whole string when it is shorter than n. -/
def strTakeRight (s : String) (n : Nat) : String :=
  String.mk (s.data.drop (s.data.length - n))

def padZeros (w : Nat) (l : List Char) : List Char :=
  List.replicate (w - l.length) '0' ++ l

/-- Python str.zfill: left-pad with zero characters to the given width,
keeping a leading sign character in front of the padding. -/
def zfill (w : Nat) (s : String) : String :=
  match s.data with
  | '-' :: cs => String.mk ('-' :: padZeros (w - 1) cs)
  | '+' :: cs => String.mk ('+' :: padZeros (w - 1) cs)
  | cs => String.mk (padZeros w cs)

/-- Uppercase hexadecimal digit characters, the digits that Python hex()
followed by upper() produces. -/
def hexDigitChar (n : Nat) : Char :=
  if n < 10 then Char.ofNat (48 + n)
  else if n < 16 then Char.ofNat (65 + (n - 10))
  else '*'

/-- Digit characters of n in base 16, most significant first, prepended to
acc.  Fuel-based structural recursion; fuel = n + 1 always suffices. -/
def toHexCore : Nat → Nat → List Char → List Char
  | 0, _, acc => acc
  | fuel + 1, n, acc =>
    if n < 16 then hexDigitChar n :: acc
    else toHexCore fuel (n / 16) (hexDigitChar (n % 16) :: acc)

/-- The digit string of Python hex(n) with the 0x prefix stripped and
upper() applied (for a nonnegative argument; hex_string below takes the
absolute value first, exactly as the slice after the x does in Python). -/
def natToHex (n : Nat) : String := String.mk (toHexCore (n + 1) n [])

/-- Source hex_string: hex digits of the absolute value (Python hex(i)
sliced after the x character drops the sign), uppercased, zero-filled to
two characters. -/
def hex_string (i : Int) : String := zfill 2 (natToHex i.natAbs)

/-- Source long_hex_string: hex_string zero-filled to four characters. -/
def long_hex_string (i : Int) : String := zfill 4 (hex_string i)

/-- Value of one hexadecimal digit character, either case, as Python
int(x, 16) accepts. -/
def parseHexDigit (c : Char) : Option Nat :=
  if 48 ≤ c.toNat ∧ c.toNat ≤ 57 then some (c.toNat - 48)
  else if 97 ≤ c.toNat ∧ c.toNat ≤ 102 then some (c.toNat - 97 + 10)
  else if 65 ≤ c.toNat ∧ c.toNat ≤ 70 then some (c.toNat - 65 + 10)
  else none

def parseGo (a : Nat) : List Char → Option Nat
  | [] => some a
  | c :: cs =>
    match parseHexDigit c with
    | none => none
    | some d => parseGo (16 * a + d) cs

def parseHexList (l : List Char) : Option Nat :=
  match l with
  | [] => none
  | _ => parseGo 0 l

/-- Python int(x, 16) on the strings this interpreter produces: an
optional sign followed by at least one hexadecimal digit.  none models the
ValueError that int raises on a malformed string. -/
def pyIntHex (s : String) : Option Int :=
  match s.data with
  | '-' :: cs => (parseHexList cs).map (fun n => -(n : Int))
  | '+' :: cs => (parseHexList cs).map (fun n => (n : Int))
  | cs => (parseHexList cs).map (fun n => (n : Int))

/-- Source decimal: parse as hexadecimal and reinterpret magnitudes above
32767 as negative two's-complement values. -/
def decimal (x : String) : Option Int :=
  (pyIntHex x).map (fun d => if d > 32767 then d - 65536 else d)

/-- Source load_memory: truncate the location to its last two characters
and look it up; none models the KeyError on a missing key. -/
def load_memory (memory : Dict) (location : String) : Option String :=
  dictGet memory (strTakeRight location 2)

/-- Source check_range as a predicate: true when the value is outside
[-32768, 32767], in which case the Python code raises. -/
def outOfRange (value : Int) : Bool :=
  value < -32768 || 32767 < value

/-- Source store_register.  The address is truncated to its last single
character, the value is zero-filled to four characters.  The guard
comparing the one-character address to the two-character string 00 can
never hold; if it did, the Python raise would itself crash with a
NameError because convert_to_hex_string is undefined, which the error
value records. -/
def store_register (registers : Dict) (address value : String) :
    Except ToyErr Dict :=
  let address := strTakeRight address 1
  let value := zfill 4 value
  if address = "00" then .error .nameError
  else .ok (dictSet registers address value)

/-- Source store_memory.  Returns the updated memory together with the
list of console lines printed (one line exactly when the normalized
address is FF).  none from decimal becomes the ValueError that the print
call would raise. -/
def store_memory (memory : Dict) (address value : String) :
    Except ToyErr (Dict × List String) :=
  let address := strTakeRight (zfill 2 address) 2
  let value := zfill 4 value
  if address = "FF" then
    match decimal value with
    | none => .error (.valueError value)
    | some dv =>
      .ok (dictSet memory address value,
           ["> " ++ value ++ ", " ++ toString dv])
  else .ok (dictSet memory address value, [])

/-- Result of one successful call to execute: the register file, memory,
the returned next program counter (none models the Python return None on
halt), the console lines printed, and the console input lines left
unconsumed. -/
structure StepRes where
  regs : Dict
  mem : Dict
  next : Option Int
  out : List String
  inputs : List String
  deriving Repr, DecidableEq

/-- Dispatch on the opcode character, mirroring the match statement of the
source execute.  Arguments a and b are the signed values of the registers
named by the third and fourth instruction characters, rt the raw word in
the second of those registers; both lookups happened before dispatch, as
in the source.  The debug calls evaluate their f-string arguments even
with debugging off; in case A (source lines 95-101) this reads
registers[d] before the store, which the model keeps as an explicit
lookup, while in every other case the eager reads duplicate reads the
case performs anyway.  A Python match with no matching case falls through
to return program_counter + 1. -/
def dispatch (pc : Int) (registers memory : Dict) (inputs : List String)
    (opcode : Char) (d addr : String) (a b : Int) (rt : String) :
    Except ToyErr StepRes :=
  match opcode with
  | '1' =>
    let result := a + b
    if outOfRange result then .error (.rangeError pc result)
    else
      (store_register registers d (long_hex_string result)).map
        (fun regs => ⟨regs, memory, some (pc + 1), [], inputs⟩)
  | '2' =>
    let result := a - b
    if outOfRange result then .error (.rangeError pc result)
    else
      (store_register registers d (long_hex_string result)).map
        (fun regs => ⟨regs, memory, some (pc + 1), [], inputs⟩)
  | '3' =>
    let result := Int.land a b
    if outOfRange result then .error (.rangeError pc result)
    else
      (store_register registers d (long_hex_string result)).map
        (fun regs => ⟨regs, memory, some (pc + 1), [], inputs⟩)
  | '4' =>
    let result := Int.xor a b
    if outOfRange result then .error (.rangeError pc result)
    else
      (store_register registers d (long_hex_string result)).map
        (fun regs => ⟨regs, memory, some (pc + 1), [], inputs⟩)
  | '5' =>
    if b < 0 then .error (.valueError "negative shift count")
    else
      let result := a * 2 ^ b.toNat
      if outOfRange result then .error (.rangeError pc result)
      else
        (store_register registers d (long_hex_string result)).map
          (fun regs => ⟨regs, memory, some (pc + 1), [], inputs⟩)
  | '6' =>
    if b < 0 then .error (.valueError "negative shift count")
    else
      let result := Int.fdiv a (2 ^ b.toNat)
      if outOfRange result then .error (.rangeError pc result)
      else
        (store_register registers d (long_hex_string result)).map
          (fun regs => ⟨regs, memory, some (pc + 1), [], inputs⟩)
  | '7' =>
    (store_register registers d addr).map
      (fun regs => ⟨regs, memory, some (pc + 1), [], inputs⟩)
  | '8' =>
    if addr = "FF" then
      match inputs with
      | [] => .error .eofError
      | inp :: rest =>
        let memory := dictSet memory addr inp
        (store_register registers d inp).map
          (fun regs => ⟨regs, memory, some (pc + 1), [], rest⟩)
    else
      match dictGet memory addr with
      | none => .error (.keyError addr)
      | some v =>
        (store_register registers d v).map
          (fun regs => ⟨regs, memory, some (pc + 1), [], inputs⟩)
  | '9' =>
    match dictGet registers d with
    | none => .error (.keyError d)
    | some rd =>
      (store_memory memory addr rd).map
        (fun p => ⟨registers, p.1, some (pc + 1), p.2, inputs⟩)
  | 'A' =>
    match dictGet registers d with
    | none => .error (.keyError d)
    | some _ =>
      match load_memory memory rt with
      | none => .error (.keyError (strTakeRight rt 2))
      | some v =>
        (store_register registers d v).map
          (fun regs => ⟨regs, memory, some (pc + 1), [], inputs⟩)
  | 'B' =>
    match dictGet registers d with
    | none => .error (.keyError d)
    | some rd =>
      (store_memory memory rt rd).map
        (fun p => ⟨registers, p.1, some (pc + 1), p.2, inputs⟩)
  | '0' => .ok ⟨registers, memory, none, [], inputs⟩
  | 'C' =>
    match dictGet registers d with
    | none => .error (.keyError d)
    | some rd =>
      match decimal rd with
      | none => .error (.valueError rd)
      | some dv =>
        if dv = 0 then
          match decimal addr with
          | none => .error (.valueError addr)
          | some da => .ok ⟨registers, memory, some da, [], inputs⟩
        else .ok ⟨registers, memory, some (pc + 1), [], inputs⟩
  | 'D' =>
    match dictGet registers d with
    | none => .error (.keyError d)
    | some rd =>
      match pyIntHex rd with
      | none => .error (.valueError rd)
      | some u =>
        if u > 0 then
          match decimal addr with
          | none => .error (.valueError addr)
          | some da => .ok ⟨registers, memory, some da, [], inputs⟩
        else .ok ⟨registers, memory, some (pc + 1), [], inputs⟩
  | 'E' =>
    match dictGet registers d with
    | none => .error (.keyError d)
    | some rd =>
      match decimal rd with
      | none => .error (.valueError rd)
      | some dv => .ok ⟨registers, memory, some (dv + 1), [], inputs⟩
  | 'F' =>
    match store_register registers d (hex_string pc) with
    | .error e => .error e
    | .ok regs =>
      match decimal addr with
      | none => .error (.valueError addr)
      | some da => .ok ⟨regs, memory, some da, [], inputs⟩
  | _ => .ok ⟨registers, memory, some (pc + 1), [], inputs⟩

/-- Body of the source execute after the instruction fetch: index the
instruction word (IndexError when shorter than four characters), then
unconditionally read and sign-convert registers s and t (lines 29 and 30
of the source run before the opcode dispatch for every opcode), then
dispatch. -/
def execInstr (pc : Int) (registers memory : Dict) (inputs : List String)
    (instruction : String) : Except ToyErr StepRes :=
  match instruction.data with
  | c0 :: c1 :: c2 :: c3 :: _ =>
    let d := charStr c1
    let s := charStr c2
    let t := charStr c3
    let addr := String.mk [c2, c3]
    match dictGet registers s with
    | none => .error (.keyError s)
    | some rs =>
      match decimal rs with
      | none => .error (.valueError rs)
      | some a =>
        match dictGet registers t with
        | none => .error (.keyError t)
        | some rt =>
          match decimal rt with
          | none => .error (.valueError rt)
          | some b => dispatch pc registers memory inputs c0 d addr a b rt
  | _ => .error .indexError

/-- Source execute: fetch the instruction at memory[hex_string(pc)] and
run it. -/
def execute (pc : Int) (registers memory : Dict) (inputs : List String) :
    Except ToyErr StepRes :=
  match load_memory memory (hex_string pc) with
  | none => .error (.keyError (strTakeRight (hex_string pc) 2))
  | some instruction => execInstr pc registers memory inputs instruction

/-- Register file built by the start-up block of the source: sixteen
entries keyed hex_string(0) through hex_string(15), i.e. the two-character
keys 00 through 0F, each holding 0000. -/
def initRegisters : Dict :=
  (List.range 16).foldl (fun m i => dictSet m (hex_string (Int.ofNat i)) "0000") []

/-- Memory built by the start-up block of the source: 256 entries keyed
long_hex_string(0) through long_hex_string(255), i.e. the four-character
keys 0000 through 00FF, each holding 0000. -/
def initMemory : Dict :=
  (List.range 256).foldl (fun m i => dictSet m (long_hex_string (Int.ofNat i)) "0000") []

/-! ### Helper lemmas -/

theorem strTakeRight_one_length (s : String) : (strTakeRight s 1).length ≤ 1 := by
  have h : (s.data.drop (s.data.length - 1)).length = s.data.length - (s.data.length - 1) :=
    List.length_drop _ _
  simp only [strTakeRight, String.length]
  omega

/-- The reserved-register guard of store_register can never fire: the
address has been truncated to at most one character while the guard
compares against a two-character string.  Every call therefore succeeds
and mutates the register file. -/
theorem store_register_ok (registers : Dict) (address value : String) :
    store_register registers address value =
      .ok (dictSet registers (strTakeRight address 1) (zfill 4 value)) := by
  unfold store_register
  rw [if_neg]
  intro h
  have hlen := congrArg String.length h
  have h1 := strTakeRight_one_length address
  rw [hlen] at h1
  simp [String.length] at h1

theorem strTakeRight_charStr (c : Char) : strTakeRight (charStr c) 1 = charStr c := rfl

theorem store_register_charStr (registers : Dict) (c : Char) (value : String) :
    store_register registers (charStr c) value =
      .ok (dictSet registers (charStr c) (zfill 4 value)) := by
  rw [store_register_ok, strTakeRight_charStr]

/-- A lookup with a one-character key fails in any dictionary whose keys
all have two characters. -/
theorem lookup_none_of_two_char (l : Dict) (h2 : ∀ p ∈ l, p.1.length = 2)
    (k : String) (hk : k.length = 1) : dictGet l k = none := by
  induction l with
  | nil => rfl
  | cons p rest ih =>
    obtain ⟨a, b⟩ := p
    have ha : a.length = 2 := h2 (a, b) (by simp)
    have hne : (k == a) = false := by
      refine beq_eq_false_iff_ne.mpr ?hne
      intro he
      rw [he, ha] at hk
      omega
    simp only [dictGet, List.lookup, hne]
    exact ih (fun p hp => h2 p (List.mem_cons_of_mem _ hp))

theorem initRegisters_keys : ∀ p ∈ initRegisters, p.1.length = 2 := by decide

theorem charStr_length (c : Char) : (charStr c).length = 1 := rfl

/-! ### Hexadecimal printing and parsing round-trip -/

theorem toHexCore_append (fuel : Nat) : ∀ (n : Nat) (acc : List Char),
    toHexCore fuel n acc = toHexCore fuel n [] ++ acc := by
  induction fuel with
  | zero => intro n acc; rfl
  | succ fuel ih =>
    intro n acc
    by_cases h : n < 16
    · simp [toHexCore, h]
    · simp only [toHexCore, h, if_false]
      rw [ih (n / 16) (hexDigitChar (n % 16) :: acc),
          ih (n / 16) [hexDigitChar (n % 16)], List.append_assoc]
      rfl

theorem toHexCore_fuel (fuel : Nat) : ∀ (n : Nat) (acc : List Char), n < fuel →
    toHexCore fuel n acc = toHexCore (n + 1) n acc := by
  induction fuel using Nat.strong_induction_on with
  | _ fuel ih =>
    intro n acc h
    match fuel, h with
    | f + 1, h =>
      by_cases h16 : n < 16
      · conv_lhs => rw [toHexCore]
        conv_rhs => rw [toHexCore]
        rw [if_pos h16, if_pos h16]
      · have hdiv : n / 16 < n := Nat.div_lt_self (by omega) (by norm_num)
        conv_lhs => rw [toHexCore]
        conv_rhs => rw [toHexCore]
        rw [if_neg h16, if_neg h16,
            ih f (by omega) (n / 16) _ (by omega),
            ih n (by omega) (n / 16) _ (by omega)]

theorem parseGo_append (l1 : List Char) : ∀ (a : Nat) (l2 : List Char),
    parseGo a (l1 ++ l2) = (parseGo a l1).bind (fun v => parseGo v l2) := by
  induction l1 with
  | nil => intro a l2; rfl
  | cons c cs ih =>
    intro a l2
    simp only [List.cons_append, parseGo]
    match hd : parseHexDigit c with
    | none => rfl
    | some d => exact ih (16 * a + d) l2

theorem parseHexDigit_hexDigitChar : ∀ k : Fin 16,
    parseHexDigit (hexDigitChar k.val) = some k.val := by decide

theorem parseGo_zeros (k : Nat) : ∀ l : List Char,
    parseGo 0 (List.replicate k '0' ++ l) = parseGo 0 l := by
  induction k with
  | zero => intro l; rfl
  | succ k ih =>
    intro l
    simp only [List.replicate, List.cons_append, parseGo, parseHexDigit]
    exact ih l

theorem parse_toHex (n : Nat) : parseGo 0 (toHexCore (n + 1) n []) = some n := by
  induction n using Nat.strong_induction_on with
  | _ n ih =>
    by_cases h : n < 16
    · have hu : toHexCore (n + 1) n [] = [hexDigitChar n] := by
        simp [toHexCore, h]
      rw [hu]
      have hd := parseHexDigit_hexDigitChar ⟨n, h⟩
      simp [parseGo, hd]
    · have hdiv : n / 16 < n := Nat.div_lt_self (by omega) (by norm_num)
      have hstep : toHexCore (n + 1) n [] =
          toHexCore (n / 16 + 1) (n / 16) [] ++ [hexDigitChar (n % 16)] := by
        conv_lhs => rw [toHexCore]
        rw [if_neg h, toHexCore_append n (n / 16) [hexDigitChar (n % 16)],
            toHexCore_fuel n (n / 16) [] (by omega)]
      rw [hstep, parseGo_append, ih (n / 16) hdiv]
      have hd := parseHexDigit_hexDigitChar ⟨n % 16, Nat.mod_lt _ (by norm_num)⟩
      simp [parseGo, hd]
      omega

theorem toHexCore_acc_nil (fuel : Nat) : ∀ (n : Nat) (acc : List Char),
    toHexCore fuel n acc = [] → acc = [] := by
  induction fuel with
  | zero => intro n acc h; exact h
  | succ fuel ih =>
    intro n acc h
    by_cases h16 : n < 16
    · simp [toHexCore, h16] at h
    · simp only [toHexCore, h16, if_false] at h
      have := ih (n / 16) (hexDigitChar (n % 16) :: acc) h
      simp at this

theorem toHexCore_ne_nil (n : Nat) : toHexCore (n + 1) n [] ≠ [] := by
  intro h
  by_cases h16 : n < 16
  · simp [toHexCore, h16] at h
  · simp only [toHexCore, h16, if_false] at h
    have := toHexCore_acc_nil n (n / 16) _ h
    simp at this

theorem hexDigitChar_not_sign (k : Nat) :
    hexDigitChar k ≠ '-' ∧ hexDigitChar k ≠ '+' := by
  by_cases h1 : k < 10
  · simp only [hexDigitChar, if_pos h1]
    interval_cases k <;> exact ⟨by decide, by decide⟩
  · by_cases h2 : k < 16
    · simp only [hexDigitChar, if_neg h1, if_pos h2]
      interval_cases k <;> exact ⟨by decide, by decide⟩
    · simp only [hexDigitChar, if_neg h1, if_neg h2]
      exact ⟨by decide, by decide⟩

theorem toHexCore_chars (fuel : Nat) : ∀ (n : Nat) (acc : List Char),
    ∀ c ∈ toHexCore fuel n acc, (∃ k, c = hexDigitChar k) ∨ c ∈ acc := by
  induction fuel with
  | zero => intro n acc c hc; exact Or.inr hc
  | succ fuel ih =>
    intro n acc c hc
    by_cases h16 : n < 16
    · simp [toHexCore, h16] at hc
      rcases hc with hc | hc
      · exact Or.inl ⟨n, hc⟩
      · exact Or.inr hc
    · simp only [toHexCore, h16, if_false] at hc
      rcases ih (n / 16) (hexDigitChar (n % 16) :: acc) c hc with hk | hmem
      · exact Or.inl hk
      · rcases List.mem_cons.mp hmem with hc0 | hc1
        · exact Or.inl ⟨n % 16, hc0⟩
        · exact Or.inr hc1

theorem padZeros_chars (w : Nat) (l : List Char) :
    ∀ c ∈ padZeros w l, c = '0' ∨ c ∈ l := by
  intro c hc
  rcases List.mem_append.mp hc with hr | hl
  · exact Or.inl (List.eq_of_mem_replicate hr)
  · exact Or.inr hl

theorem padZeros_ne_nil (w : Nat) (l : List Char) (h : l ≠ []) :
    padZeros w l ≠ [] := by
  intro he
  rcases List.append_eq_nil.mp he with ⟨_, h2⟩
  exact h h2

theorem zfill_sign_free (w : Nat) (l : List Char)
    (h : ∀ c ∈ l, c ≠ '-' ∧ c ≠ '+') :
    zfill w (String.mk l) = String.mk (padZeros w l) := by
  unfold zfill
  split
  case _ cs he =>
    exfalso
    have : '-' ∈ l := by
      have hl : l = '-' :: cs := he
      rw [hl]; simp
    exact (h _ this).1 rfl
  case _ cs he =>
    exfalso
    have : '+' ∈ l := by
      have hl : l = '+' :: cs := he
      rw [hl]; simp
    exact (h _ this).2 rfl
  case _ => rfl

theorem pyIntHex_sign_free (l : List Char)
    (h : ∀ c ∈ l, c ≠ '-' ∧ c ≠ '+') (hne : l ≠ []) :
    pyIntHex (String.mk l) = (parseGo 0 l).map (fun n => (n : Int)) := by
  unfold pyIntHex
  split
  case _ cs he =>
    exfalso
    have : '-' ∈ l := by
      have hl : l = '-' :: cs := he
      rw [hl]; simp
    exact (h _ this).1 rfl
  case _ cs he =>
    exfalso
    have : '+' ∈ l := by
      have hl : l = '+' :: cs := he
      rw [hl]; simp
    exact (h _ this).2 rfl
  case _ =>
    unfold parseHexList
    split
    case _ he => exact absurd he hne
    case _ => rfl

theorem natToHex_not_sign (n : Nat) :
    ∀ c ∈ toHexCore (n + 1) n [], c ≠ '-' ∧ c ≠ '+' := by
  intro c hc
  rcases toHexCore_chars (n + 1) n [] c hc with ⟨k, hk⟩ | hmem
  · rw [hk]; exact hexDigitChar_not_sign k
  · simp at hmem

theorem padZeros_not_sign (w : Nat) (l : List Char)
    (h : ∀ c ∈ l, c ≠ '-' ∧ c ≠ '+') :
    ∀ c ∈ padZeros w l, c ≠ '-' ∧ c ≠ '+' := by
  intro c hc
  rcases padZeros_chars w l c hc with h0 | hl
  · rw [h0]; exact ⟨by decide, by decide⟩
  · exact h c hl

theorem long_hex_string_nat (w : Nat) :
    long_hex_string (Int.ofNat w) =
      String.mk (padZeros 4 (padZeros 2 (toHexCore (w + 1) w []))) := by
  unfold long_hex_string hex_string natToHex
  have habs : (Int.ofNat w).natAbs = w := rfl
  rw [habs,
      zfill_sign_free 2 _ (natToHex_not_sign w),
      zfill_sign_free 4 _ (padZeros_not_sign 2 _ (natToHex_not_sign w))]

theorem long_hex_string_decimal (w : Nat) :
    decimal (long_hex_string (Int.ofNat w)) =
      some (if (w : Int) > 32767 then (w : Int) - 65536 else (w : Int)) := by
  have hchars : ∀ c ∈ padZeros 4 (padZeros 2 (toHexCore (w + 1) w [])),
      c ≠ '-' ∧ c ≠ '+' :=
    padZeros_not_sign 4 _ (padZeros_not_sign 2 _ (natToHex_not_sign w))
  have hne : padZeros 4 (padZeros 2 (toHexCore (w + 1) w [])) ≠ [] :=
    padZeros_ne_nil 4 _ (padZeros_ne_nil 2 _ (toHexCore_ne_nil w))
  rw [decimal, long_hex_string_nat, pyIntHex_sign_free _ hchars hne]
  have hp : parseGo 0 (padZeros 4 (padZeros 2 (toHexCore (w + 1) w []))) = some w := by
    rw [padZeros, padZeros, parseGo_zeros, parseGo_zeros]
    exact parse_toHex w
  rw [hp]
  rfl

/-- Unfolds one execute step down to the opcode dispatch, given that the
fetch, the instruction indexing, and the unconditional reads of registers
s and t all succeed. -/
theorem execute_eq_dispatch (pc : Int) (regs mem : Dict) (inputs : List String)
    (instr : String) (c0 c1 c2 c3 : Char) (rest : List Char)
    (rs rt : String) (a b : Int)
    (hfetch : load_memory mem (hex_string pc) = some instr)
    (hdata : instr.data = c0 :: c1 :: c2 :: c3 :: rest)
    (hs : dictGet regs (charStr c2) = some rs)
    (ha : decimal rs = some a)
    (ht : dictGet regs (charStr c3) = some rt)
    (hb : decimal rt = some b) :
    execute pc regs mem inputs =
      dispatch pc regs mem inputs c0 (charStr c1) (String.mk [c2, c3]) a b rt := by
  simp only [charStr] at hs ht ⊢
  simp only [execute, hfetch, execInstr, hdata, charStr, hs, ha, ht, hb]

theorem outOfRange_true (value : Int) (h : value < -32768 ∨ 32767 < value) :
    outOfRange value = true := by
  rcases h with h | h <;> simp [outOfRange] <;> omega

/-- store_memory whose normalized address is FF: updates the slot and
emits one console line with the zero-filled value and its signed decimal
reading. -/
theorem store_memory_ff_eq (mem : Dict) (address value : String) (dv : Int)
    (haddr : strTakeRight (zfill 2 address) 2 = "FF")
    (hdv : decimal (zfill 4 value) = some dv) :
    store_memory mem address value =
      .ok (dictSet mem "FF" (zfill 4 value),
           ["> " ++ zfill 4 value ++ ", " ++ toString dv]) := by
  simp only [store_memory, haddr, hdv, if_true]

/-! ### Claim theorems -/

/-- Claim C1 (refuted, code bug).  A store targeting register 0 does not
raise: store_register truncates the address to its last single character,
so the guard comparing it with the two-character string 00 is dead code.
Executing instruction 7041 (opcode 7, d = 0) at PC 16 succeeds, writes
0041 into register 0, and advances the PC, where the claim demands a
ReservedRegisterError with all registers unchanged. -/
theorem reservedRegisterStoreSucceeds :
    execute 16 [("0", "0000"), ("4", "0000"), ("1", "0000")] [("10", "7041")] [] =
      .ok ⟨[("0", "0041"), ("0", "0000"), ("4", "0000"), ("1", "0000")],
           [("10", "7041")], some 17, [], []⟩ ∧
    dictGet [("0", "0041"), ("0", "0000"), ("4", "0000"), ("1", "0000")] "0" =
      some "0041" :=
  ⟨rfl, rfl⟩

/-- Claim C2 (refuted, code bug).  A negative ALU result is not stored as
its unsigned 16-bit magnitude: hex_string slices Python hex(i) after the
x character, which drops the minus sign, so 0 - 1 is stored as 0001
instead of FFFF.  Executing instruction 2201 (subtract register 0 minus
register 1, with values 0 and 1) stores 0001 into register 2, a word that
decodes back to +1, not -1. -/
theorem negativeResultStoredWithoutSign :
    execute 16 [("0", "0000"), ("1", "0001"), ("2", "0000")] [("10", "2201")] [] =
      .ok ⟨[("2", "0001"), ("0", "0000"), ("1", "0001"), ("2", "0000")],
           [("10", "2201")], some 17, [], []⟩ ∧
    long_hex_string (0 - 1 : Int) = "0001" ∧
    decimal "0001" = some 1 ∧
    "0001" ≠ "FFFF" :=
  ⟨rfl, rfl, rfl, by decide⟩

/-- Claim C3 counterexample.  Opcode D compares int(registers[d], 16),
the unsigned magnitude, not the signed value: with register 1 holding
FFFF (signed value -1, so the claim demands fallthrough to PC + 1 = 17),
instruction D120 at PC 16 takes the branch to unsigned(20) = 32. -/
theorem branchPositiveSignedCounterexample :
    execute 16 [("0", "0000"), ("1", "FFFF"), ("2", "0000")] [("10", "D120")] [] =
      .ok ⟨[("0", "0000"), ("1", "FFFF"), ("2", "0000")],
           [("10", "D120")], some 32, [], []⟩ ∧
    decimal "FFFF" = some (-1) ∧
    (32 : Int) ≠ 16 + 1 :=
  ⟨rfl, rfl, by decide⟩

/-- Claim C3 as amended.  Opcode D branches on the unsigned magnitude of
register d: if int(registers[d], 16) > 0 the next PC is decimal(addr),
otherwise PC + 1; a register holding a magnitude in 8000-FFFF therefore
takes the branch. -/
theorem branchPositiveUnsigned (pc : Int) (regs mem : Dict) (inputs : List String)
    (instr : String) (c1 c2 c3 : Char) (rest : List Char)
    (rs rt rd : String) (a b u da : Int)
    (hfetch : load_memory mem (hex_string pc) = some instr)
    (hdata : instr.data = 'D' :: c1 :: c2 :: c3 :: rest)
    (hs : dictGet regs (charStr c2) = some rs)
    (ha : decimal rs = some a)
    (ht : dictGet regs (charStr c3) = some rt)
    (hb : decimal rt = some b)
    (hd : dictGet regs (charStr c1) = some rd)
    (hu : pyIntHex rd = some u)
    (hda : decimal (String.mk [c2, c3]) = some da) :
    execute pc regs mem inputs =
      .ok ⟨regs, mem, some (if 0 < u then da else pc + 1), [], inputs⟩ := by
  rw [execute_eq_dispatch pc regs mem inputs instr 'D' c1 c2 c3 rest rs rt a b
      hfetch hdata hs ha ht hb]
  by_cases hpos : 0 < u
  · simp only [dispatch, hd, hu, hda, if_pos hpos]
  · simp only [dispatch, hd, hu, if_neg hpos]

/-- Witness for the amended claim C3: with register 1 holding 8000
(unsigned magnitude 32768, signed value -32768), instruction D130 takes
the branch to 48. -/
theorem branchPositiveUnsignedWitness :
    execute 16 [("0", "0000"), ("1", "8000"), ("3", "0000")] [("10", "D130")] [] =
      .ok ⟨[("0", "0000"), ("1", "8000"), ("3", "0000")],
           [("10", "D130")], some 48, [], []⟩ :=
  branchPositiveUnsigned 16 [("0", "0000"), ("1", "8000"), ("3", "0000")]
    [("10", "D130")] [] "D130" '1' '3' '0' [] "0000" "0000" "8000" 0 0 32768 48
    rfl rfl rfl rfl rfl rfl rfl rfl rfl

set_option maxRecDepth 8192 in
/-- Claim C4 (refuted, code bug).  The start-up block initializes memory
under the four-character keys long_hex_string(i), 0000 through 00FF, but
load_memory looks addresses up under their last two characters, so a
load from an address no loader line has written fails with a KeyError
instead of returning the word 0.  The 256 zero entries exist, only under
keys that no load can reach. -/
theorem initMemoryUnreachableByLoad :
    load_memory initMemory "10" = none ∧
    dictGet initMemory "0010" = some "0000" :=
  ⟨rfl, rfl⟩

set_option maxRecDepth 8192 in
/-- Claim C5 (refuted, code bug).  On the initialized machine with the
loader entry 10: 0000 (halt at the entry address), the very first execute
does not halt normally: lines 29 and 30 of the source read registers[s]
with the one-character key 0, while start-up populated the register file
under the two-character keys 00 through 0F, so the step raises KeyError
instead of halting. -/
theorem haltProgramKeyError :
    execute 16 initRegisters (dictSet initMemory "10" "0000") [] =
      .error (.keyError "0") :=
  rfl

/-- Claim C6 (confirmed).  For every ALU instruction (opcodes 1 through
6), when the computed result lies outside [-32768, 32767] the step
returns the range error carrying the current PC and the offending value;
the error is produced by check_range before store_register runs, so no
register or memory cell is written. -/
theorem aluRangeCheckHaltsBeforeStore (pc : Int) (regs mem : Dict)
    (inputs : List String) (instr : String) (c0 c1 c2 c3 : Char)
    (rest : List Char) (rs rt : String) (a b r : Int)
    (hfetch : load_memory mem (hex_string pc) = some instr)
    (hdata : instr.data = c0 :: c1 :: c2 :: c3 :: rest)
    (hs : dictGet regs (charStr c2) = some rs)
    (ha : decimal rs = some a)
    (ht : dictGet regs (charStr c3) = some rt)
    (hb : decimal rt = some b)
    (hop : c0 = '1' ∧ r = a + b ∨ c0 = '2' ∧ r = a - b ∨
           c0 = '3' ∧ r = Int.land a b ∨ c0 = '4' ∧ r = Int.xor a b ∨
           c0 = '5' ∧ 0 ≤ b ∧ r = a * 2 ^ b.toNat ∨
           c0 = '6' ∧ 0 ≤ b ∧ r = Int.fdiv a (2 ^ b.toNat))
    (hr : r < -32768 ∨ 32767 < r) :
    execute pc regs mem inputs = .error (.rangeError pc r) := by
  rw [execute_eq_dispatch pc regs mem inputs instr c0 c1 c2 c3 rest rs rt a b
      hfetch hdata hs ha ht hb]
  have hout := outOfRange_true r hr
  rcases hop with ⟨hc, hrr⟩ | ⟨hc, hrr⟩ | ⟨hc, hrr⟩ | ⟨hc, hrr⟩ |
    ⟨hc, hbb, hrr⟩ | ⟨hc, hbb, hrr⟩ <;> subst hc <;> subst hrr
  · simp only [dispatch, hout, if_true]
  · simp only [dispatch, hout, if_true]
  · simp only [dispatch, hout, if_true]
  · simp only [dispatch, hout, if_true]
  · simp only [dispatch, if_neg (by omega : ¬b < 0), hout, if_true]
  · simp only [dispatch, if_neg (by omega : ¬b < 0), hout, if_true]

/-- Witness for claim C6: adding registers holding 20000 and 20000
(instruction 1312 at PC 16) raises the range error for 40000 and the
step produces no successor state. -/
theorem aluRangeCheckWitness :
    execute 16 [("1", "4E20"), ("2", "4E20"), ("3", "0000")] [("10", "1312")] [] =
      .error (.rangeError 16 40000) :=
  aluRangeCheckHaltsBeforeStore 16 [("1", "4E20"), ("2", "4E20"), ("3", "0000")]
    [("10", "1312")] [] "1312" '1' '3' '1' '2' [] "4E20" "4E20" 20000 20000 40000
    rfl rfl rfl rfl rfl rfl (Or.inl ⟨rfl, rfl⟩) (Or.inr (by decide))

/-- Claim C7 counterexample.  An indirect load (opcode A) whose resolved
address is FF performs no console read: with register 1 holding 00FF and
an input line available, instruction A201 copies the existing memory[FF]
word 0041 into register 2, leaves memory[FF] untouched, and consumes no
input, where the claim demands a console read whose value is stored into
memory[FF] before the register copy. -/
theorem indirectLoadNoConsoleRead :
    execute 16 [("0", "0000"), ("1", "00FF"), ("2", "0000")]
        [("10", "A201"), ("FF", "0041")] ["99"] =
      .ok ⟨[("2", "0041"), ("0", "0000"), ("1", "00FF"), ("2", "0000")],
           [("10", "A201"), ("FF", "0041")], some 17, [], ["99"]⟩ :=
  rfl

/-- Claim C7 as amended.  Indirection resolves to the last two characters
of the register word before the access rule is applied, so an indirect
store (opcode B) to a register word ending in FF emits the console line
exactly like a direct store to FF; an indirect load (opcode A), however,
performs no console read for any resolved address: after the eager read
of register d made by its debug argument, it copies the existing memory
word into register d with the input stream, the memory, and the console
output untouched. -/
theorem indirectAccessAtFF (pc : Int) (regs mem : Dict) (inputs : List String)
    (instr : String) (c0 c1 c2 c3 : Char) (rest : List Char)
    (rs rt : String) (a b : Int)
    (hfetch : load_memory mem (hex_string pc) = some instr)
    (hdata : instr.data = c0 :: c1 :: c2 :: c3 :: rest)
    (hs : dictGet regs (charStr c2) = some rs)
    (ha : decimal rs = some a)
    (ht : dictGet regs (charStr c3) = some rt)
    (hb : decimal rt = some b) :
    (c0 = 'A' → ∀ rd v, dictGet regs (charStr c1) = some rd →
      dictGet mem (strTakeRight rt 2) = some v →
      execute pc regs mem inputs =
        .ok ⟨dictSet regs (charStr c1) (zfill 4 v), mem, some (pc + 1),
             [], inputs⟩) ∧
    (c0 = 'B' → ∀ rd dv, dictGet regs (charStr c1) = some rd →
      strTakeRight (zfill 2 rt) 2 = "FF" → decimal (zfill 4 rd) = some dv →
      execute pc regs mem inputs =
        .ok ⟨regs, dictSet mem "FF" (zfill 4 rd), some (pc + 1),
             ["> " ++ zfill 4 rd ++ ", " ++ toString dv], inputs⟩) := by
  constructor
  · intro hc rd v hrd hv
    subst hc
    rw [execute_eq_dispatch pc regs mem inputs instr 'A' c1 c2 c3 rest rs rt a b
        hfetch hdata hs ha ht hb]
    simp only [dispatch, hrd, load_memory, hv, store_register_charStr, Except.map]
  · intro hc rd dv hd hFF hdv
    subst hc
    rw [execute_eq_dispatch pc regs mem inputs instr 'B' c1 c2 c3 rest rs rt a b
        hfetch hdata hs ha ht hb]
    simp only [dispatch, hd, store_memory_ff_eq mem rt rd dv hFF hdv, Except.map]

/-- Witness for the amended claim C7: instruction A201 with register 1
holding 00FF copies memory[FF] = 0041 into register 2 with no console
interaction; instruction B201 with register 1 holding 00FF and register 2
holding 0041 stores to memory[FF] and emits the console line. -/
theorem indirectAccessAtFFWitness :
    execute 16 [("0", "0000"), ("1", "00FF"), ("2", "0000")]
        [("10", "A201"), ("FF", "0041")] [] =
      .ok ⟨[("2", "0041"), ("0", "0000"), ("1", "00FF"), ("2", "0000")],
           [("10", "A201"), ("FF", "0041")], some 17, [], []⟩ ∧
    execute 16 [("0", "0000"), ("1", "00FF"), ("2", "0041")] [("10", "B201")] [] =
      .ok ⟨[("0", "0000"), ("1", "00FF"), ("2", "0041")],
           [("FF", "0041"), ("10", "B201")], some 17, ["> 0041, 65"], []⟩ := by
  constructor
  · exact (indirectAccessAtFF 16 [("0", "0000"), ("1", "00FF"), ("2", "0000")]
      [("10", "A201"), ("FF", "0041")] [] "A201" 'A' '2' '0' '1' [] "0000" "00FF"
      0 255 rfl rfl rfl rfl rfl rfl).1 rfl "0000" "0041" rfl rfl
  · exact (indirectAccessAtFF 16 [("0", "0000"), ("1", "00FF"), ("2", "0041")]
      [("10", "B201")] [] "B201" 'B' '2' '0' '1' [] "0000" "00FF"
      0 255 rfl rfl rfl rfl rfl rfl).2 rfl "0041" 65 rfl rfl rfl

/-- Claim C8 counterexample.  The interpreter has no ASCII mode: its
command line recognizes only a file name and a debug flag, and
store_memory always prints the signed decimal reading.  Storing 0041 at
FF emits the line with 65; no configuration ever produces the character
form, so the half of the claim about ASCII mode fails. -/
theorem storeToFFNoAsciiMode :
    store_memory [] "FF" "0041" = .ok ([("FF", "0041")], ["> 0041, 65"]) ∧
    "> 0041, 65" ≠ "> 0041, A" :=
  ⟨rfl, by decide⟩

/-- Claim C8 as amended.  A store to memory address FF emits exactly one
console line holding the zero-filled four-digit stored value and its
signed decimal reading; the interpreter has no ASCII mode, so value 0041
always emits the line with 65 and never a character form. -/
theorem storeToFFEmission (mem : Dict) (address value : String) (dv : Int)
    (haddr : strTakeRight (zfill 2 address) 2 = "FF")
    (hdv : decimal (zfill 4 value) = some dv) :
    store_memory mem address value =
      .ok (dictSet mem "FF" (zfill 4 value),
           ["> " ++ zfill 4 value ++ ", " ++ toString dv]) :=
  store_memory_ff_eq mem address value dv haddr hdv

/-- Witness for the amended claim C8: storing 0041 at FF emits the line
with its signed decimal reading 65. -/
theorem storeToFFEmissionWitness :
    store_memory [("FF", "0000")] "FF" "0041" =
      .ok ([("FF", "0041"), ("FF", "0000")], ["> 0041, 65"]) :=
  storeToFFEmission [("FF", "0000")] "FF" "0041" 65 rfl rfl

/-- Claim C9 (confirmed).  For every 16-bit word magnitude w, printing w
with the four-digit unsigned conversion and reading it back with the
signed two's-complement conversion yields exactly the signed
interpretation of w: w itself when w is at most 32767, and w - 65536
otherwise. -/
theorem signedUnsignedRoundTrip (w : Nat) (hw : w < 65536) :
    decimal (long_hex_string (Int.ofNat w)) =
      some (if w ≤ 32767 then (w : Int) else (w : Int) - 65536) := by
  have hz : 0 ≤ w := Nat.zero_le w
  rw [long_hex_string_decimal w]
  by_cases hle : w ≤ 32767
  · rw [if_pos hle, if_neg (by omega : ¬(w : Int) > 32767)]
  · rw [if_neg hle, if_pos (by omega : (w : Int) > 32767)]

/-- Witness for claim C9 at w = 40000: the stored word 9C40 reads back
as 40000 - 65536 = -25536. -/
theorem signedUnsignedRoundTripWitness :
    40000 < 65536 ∧
    decimal (long_hex_string (Int.ofNat 40000)) = some ((40000 : Int) - 65536) :=
  ⟨by decide, signedUnsignedRoundTrip 40000 (by decide)⟩

/-- Claim C10 (confirmed).  Every execute step, for every opcode, reads
the register file at the one-character keys given by the third and
fourth instruction characters before dispatching; start-up populates the
register file only under the two-character keys 00 through 0F, so from
the initialized register file every instruction whose fetch succeeds
fails with a KeyError on the one-character s key. -/
theorem executeRequiresSingleCharKeys (pc : Int) (mem : Dict)
    (inputs : List String) (instr : String) (c0 c1 c2 c3 : Char)
    (rest : List Char)
    (hfetch : load_memory mem (hex_string pc) = some instr)
    (hdata : instr.data = c0 :: c1 :: c2 :: c3 :: rest) :
    dictGet initRegisters (charStr c2) = none ∧
    execute pc initRegisters mem inputs = .error (.keyError (charStr c2)) := by
  have hnone : dictGet initRegisters (charStr c2) = none :=
    lookup_none_of_two_char initRegisters initRegisters_keys (charStr c2)
      (charStr_length c2)
  refine ⟨hnone, ?he⟩
  simp only [charStr] at hnone ⊢
  simp only [execute, hfetch, execInstr, hdata, charStr, hnone]

/-- Witness for claim C10: on the initialized register file, the fetched
instruction 1234 fails with a KeyError on the one-character key 3. -/
theorem executeRequiresSingleCharKeysWitness :
    dictGet initRegisters "3" = none ∧
    execute 16 initRegisters [("10", "1234")] [] = .error (.keyError "3") :=
  executeRequiresSingleCharKeys 16 [("10", "1234")] [] "1234" '1' '2' '3' '4' []
    rfl rfl

end Toy
